import Mathlib

/-!
Verification of the Feiyu gimbal protocol codec (`fyproto.py`): packet
serialization (`Packet.pack`), the CRC used on the wire (`binascii.crc_hqx`),
and the streaming decoder (`PacketReceiver.parse`) with its resynchronization
and partial-frame behaviour.

Bytes are modelled as natural numbers (wire bytes are `< 256`); byte strings
as `List Nat`; fallible operations return `Option`.
-/

set_option maxRecDepth 10000

def LONG_FORM : Nat := 0xaa55
def SHORT_FORM : Nat := 0x5aa5

/-- Little-endian value of a byte list, as `struct.unpack` reads `<B` / `<H`
slices of the given width. -/
def leNat : List Nat → Nat
  | [] => 0
  | b :: bs => b + 256 * leNat bs

/-- Little-endian encoding of `v` into `k` bytes, as `struct.pack` emits
`<B` / `<H` fields (callers guard the range, since `struct.pack` raises on
out-of-range values rather than truncating). -/
def toLE : Nat → Nat → List Nat
  | 0, _ => []
  | k + 1, v => v % 256 :: toLE k (v / 256)

/-- One shift round of the CRC used by `binascii.crc_hqx`:
CRC-16-CCITT, polynomial 0x1021, most-significant bit first. -/
def crcRound (c : Nat) : Nat :=
  if c.testBit 15 then ((c <<< 1) ^^^ 0x1021) % 65536 else (c <<< 1) % 65536

/-- Iterated CRC rounds. -/
def crcRounds : Nat → Nat → Nat
  | 0, c => c
  | n + 1, c => crcRounds n (crcRound c)

/-- Feed one byte into the CRC state. -/
def crcByte (c b : Nat) : Nat := crcRounds 8 ((c ^^^ ((b % 256) <<< 8)) % 65536)

/-- `binascii.crc_hqx(data, crc)`: the CCITT CRC-16 (poly 0x1021, MSB first)
of `data`, starting from the state `crc` (masked to 16 bits). -/
def crc_hqx (data : List Nat) (crc : Nat) : Nat :=
  data.foldl crcByte (crc % 65536)

/-- One entry of `Packet.formats`: the length-field width in bytes
(`len_struct` of `'B'` or `'H'`) and the initial CRC value. -/
structure FrameFormat where
  lenSize : Nat
  initialCrcValue : Nat
deriving DecidableEq

/-- The packet value type: `Packet(command, framing, target, data)`. -/
structure Packet where
  command : Nat
  framing : Nat
  target : Nat
  data : List Nat
deriving DecidableEq

/-- The frame-format registry `Packet.formats`, keyed by the 16-bit framing
marker: long form `0xAA55` has a 2-byte length field and CRC seed `0xFFFF`,
short form `0x5AA5` has a 1-byte length field and CRC seed `0x0000`. -/
def Packet.formats (framing : Nat) : Option FrameFormat :=
  if framing = LONG_FORM then some ⟨2, 0xffff⟩
  else if framing = SHORT_FORM then some ⟨1, 0x0000⟩
  else none

/-- `Packet.crc(framing, data)`: CRC-16 with an initial value that depends on
the packet format (`none` on an unregistered framing, where Python raises
`KeyError`). -/
def Packet.crc (framing : Nat) (data : List Nat) : Option Nat :=
  (Packet.formats framing).map fun fmt => crc_hqx data fmt.initialCrcValue

/-- `Packet.pack`: marker, target, command, length field, payload, CRC, all
little-endian.  `none` models the `struct.error` raised when a field value
does not fit its format (`'B'` target/command, `'B'`/`'H'` payload length),
and the `KeyError` on an unregistered framing. -/
def Packet.pack (p : Packet) : Option (List Nat) :=
  match Packet.formats p.framing with
  | none => none
  | some fmt =>
    if p.target < 256 ∧ p.command < 256 ∧ p.data.length < 256 ^ fmt.lenSize then
      some (toLE 2 p.framing ++
        ([p.target, p.command] ++ toLE fmt.lenSize p.data.length ++ p.data) ++
        toLE 2 (crc_hqx ([p.target, p.command] ++ toLE fmt.lenSize p.data.length ++ p.data)
          fmt.initialCrcValue))
    else none

/-- What one iteration of the `PacketReceiver.parse` loop body does:
skip a byte, report a CRC mismatch, or yield a packet. -/
inductive ParseEvent where
  | skip : ParseEvent
  | crcError (rx expected : Nat) : ParseEvent
  | packet (p : Packet) : ParseEvent
deriving DecidableEq

/-- One iteration of the `while` loop of `PacketReceiver.parse` on the current
buffer: `none` when the loop stops (fewer than 2 bytes, or an incomplete
candidate frame; buffer kept), otherwise the event produced and the remaining
buffer. -/
def parseStep (buf : List Nat) : Option (ParseEvent × List Nat) :=
  if buf.length < 2 then none
  else
    match Packet.formats (leNat (buf.take 2)) with
    | none => some (.skip, buf.drop 1)
    | some fmt =>
      let headerLen := 2 + fmt.lenSize
      if buf.length < headerLen + 4 then none
      else
        let header := (buf.drop 2).take headerLen
        let dataLen := leNat (header.drop 2)
        if buf.length < headerLen + dataLen + 4 then none
        else
          let data := (buf.drop (2 + headerLen)).take dataLen
          let rxCrc := leNat ((buf.drop (2 + headerLen + dataLen)).take 2)
          let calcCrc := crc_hqx (header ++ data) fmt.initialCrcValue
          let rest := buf.drop (4 + headerLen + dataLen)
          if rxCrc ≠ calcCrc then some (.crcError rxCrc calcCrc, rest)
          else some (.packet ⟨(header.drop 1).headD 0, leNat (buf.take 2),
            header.headD 0, data⟩, rest)

/-- Each completed loop iteration strictly shrinks the buffer (it consumes the
1-byte resynchronization skip or a whole candidate frame). -/
theorem parseStep_shrinks (buf : List Nat) (ev : ParseEvent) (rest : List Nat)
    (h : parseStep buf = some (ev, rest)) : rest.length < buf.length := by
  unfold parseStep at h
  split at h
  · exact absurd h (by simp)
  · next hlen =>
    push_neg at hlen
    split at h
    · simp only [Option.some.injEq, Prod.mk.injEq] at h
      rw [← h.2]
      simp only [List.length_drop]
      omega
    · dsimp only at h
      split at h
      · exact absurd h (by simp)
      · split at h
        · exact absurd h (by simp)
        · split at h <;>
          · simp only [Option.some.injEq, Prod.mk.injEq] at h
            rw [← h.2]
            simp only [List.length_drop]
            omega

/-- The extraction loop of `PacketReceiver.parse`, run to completion on a
buffer: the packets yielded, the CRC-mismatch diagnostics printed
(received value, expected value), and the final buffer contents. -/
def parseLoop (buf : List Nat) : List Packet × List (Nat × Nat) × List Nat :=
  match h : parseStep buf with
  | none => ([], [], buf)
  | some (ev, rest) =>
    match ev, parseLoop rest with
    | .skip, r => r
    | .crcError rx expected, r => (r.1, (rx, expected) :: r.2.1, r.2.2)
    | .packet p, r => (p :: r.1, r.2.1, r.2.2)
termination_by buf.length
decreasing_by exact parseStep_shrinks buf ev rest h

/-- `PacketReceiver.parse(data)` from a receiver whose buffer holds
`buffer`: the new data is appended and the loop is run. -/
def PacketReceiver.parse (buffer data : List Nat) :
    List Packet × List (Nat × Nat) × List Nat :=
  parseLoop (buffer ++ data)

/-- Feed a sequence of chunks to one receiver, carrying its buffer across
calls; collects all packets and diagnostics in order. -/
def feedAll : List Nat → List (List Nat) → List Packet × List (Nat × Nat) × List Nat
  | buffer, [] => ([], [], buffer)
  | buffer, c :: cs =>
    let r := PacketReceiver.parse buffer c
    let r2 := feedAll r.2.2 cs
    (r.1 ++ r2.1, r.2.1 ++ r2.2.1, r2.2.2)

/-! ### Basic facts about the byte helpers and the CRC -/

theorem toLE_length (k v : Nat) : (toLE k v).length = k := by
  induction k generalizing v with
  | zero => rfl
  | succ k ih => simp [toLE, ih]

theorem leNat_toLE (k v : Nat) : leNat (toLE k v) = v % 256 ^ k := by
  induction k generalizing v with
  | zero => simp [toLE, leNat, Nat.mod_one]
  | succ k ih =>
    simp only [toLE, leNat, ih]
    rw [pow_succ, mul_comm (256 ^ k) 256, Nat.mod_mul]

theorem toLE_lt (k v : Nat) : ∀ b ∈ toLE k v, b < 256 := by
  induction k generalizing v with
  | zero => intro b hb; simp [toLE] at hb
  | succ k ih =>
    intro b hb
    simp only [toLE, List.mem_cons] at hb
    rcases hb with h | h
    · exact h ▸ Nat.mod_lt _ (by norm_num)
    · exact ih _ b h

theorem crcRound_lt (c : Nat) : crcRound c < 65536 := by
  unfold crcRound
  split <;> exact Nat.mod_lt _ (by norm_num)

theorem crcRounds_lt {c : Nat} (n : Nat) (h : c < 65536) : crcRounds n c < 65536 := by
  induction n generalizing c with
  | zero => exact h
  | succ n ih => exact ih (crcRound_lt c)

theorem crcByte_lt (c b : Nat) : crcByte c b < 65536 :=
  crcRounds_lt 8 (Nat.mod_lt _ (by norm_num))

theorem foldl_crcByte_lt (data : List Nat) : ∀ c, c < 65536 →
    data.foldl crcByte c < 65536 := by
  induction data with
  | nil => intro c h; exact h
  | cons b bs ih => intro c _; exact ih _ (crcByte_lt c b)

theorem crc_hqx_lt (data : List Nat) (crc : Nat) : crc_hqx data crc < 65536 :=
  foldl_crcByte_lt data _ (Nat.mod_lt _ (by norm_num))

theorem formats_cases {f : Nat} {fmt : FrameFormat}
    (h : Packet.formats f = some fmt) :
    (f = LONG_FORM ∧ fmt = ⟨2, 0xffff⟩) ∨ (f = SHORT_FORM ∧ fmt = ⟨1, 0x0000⟩) := by
  unfold Packet.formats at h
  split at h
  · next hf => injection h with h'; exact Or.inl ⟨hf, h'.symm⟩
  · split at h
    · next hf => injection h with h'; exact Or.inr ⟨hf, h'.symm⟩
    · exact absurd h (by simp)

theorem formats_lt {f : Nat} {fmt : FrameFormat}
    (h : Packet.formats f = some fmt) : f < 65536 := by
  rcases formats_cases h with ⟨hf, _⟩ | ⟨hf, _⟩ <;>
    simp [hf, LONG_FORM, SHORT_FORM]

/-! ### Unfolding the decoder loop one iteration at a time -/

theorem parseLoop_exit {buf : List Nat} (h : parseStep buf = none) :
    parseLoop buf = ([], [], buf) := by
  conv_lhs => unfold parseLoop
  split
  · rfl
  · next heq => rw [h] at heq; exact absurd heq (by simp)

theorem parseLoop_skip {buf rest : List Nat}
    (h : parseStep buf = some (.skip, rest)) : parseLoop buf = parseLoop rest := by
  conv_lhs => unfold parseLoop
  split
  · next heq => rw [h] at heq; exact absurd heq (by simp)
  · next ev r heq =>
    rw [h] at heq
    injection heq with heq
    injection heq with h1 h2
    subst h1; subst h2
    rfl

theorem parseLoop_crcError {buf rest : List Nat} {rx ex : Nat}
    (h : parseStep buf = some (.crcError rx ex, rest)) :
    parseLoop buf = ((parseLoop rest).1, (rx, ex) :: (parseLoop rest).2.1,
      (parseLoop rest).2.2) := by
  conv_lhs => unfold parseLoop
  split
  · next heq => rw [h] at heq; exact absurd heq (by simp)
  · next ev r heq =>
    rw [h] at heq
    injection heq with heq
    injection heq with h1 h2
    subst h1; subst h2
    rfl

theorem parseLoop_packet {buf rest : List Nat} {p : Packet}
    (h : parseStep buf = some (.packet p, rest)) :
    parseLoop buf = (p :: (parseLoop rest).1, (parseLoop rest).2.1,
      (parseLoop rest).2.2) := by
  conv_lhs => unfold parseLoop
  split
  · next heq => rw [h] at heq; exact absurd heq (by simp)
  · next ev r heq =>
    rw [h] at heq
    injection heq with heq
    injection heq with h1 h2
    subst h1; subst h2
    rfl

/-! ### The candidate frame at the front of a buffer

Named slices of the candidate frame that `parse` examines at the front of the
buffer, for a recognized marker whose length field is `k` bytes wide. -/

/-- `header = buffer[2 : 2+header_len]` with `header_len = 2 + k`. -/
def frameHeader (buf : List Nat) (k : Nat) : List Nat := (buf.drop 2).take (2 + k)

/-- The declared payload length: the length field of the header, little-endian. -/
def frameDataLen (buf : List Nat) (k : Nat) : Nat := leNat ((frameHeader buf k).drop 2)

/-- `data = buffer[2+header_len : 2+header_len+data_len]`. -/
def frameData (buf : List Nat) (k : Nat) : List Nat :=
  (buf.drop (4 + k)).take (frameDataLen buf k)

/-- The received CRC field, read little-endian after the payload. -/
def frameRxCrc (buf : List Nat) (k : Nat) : Nat :=
  leNat ((buf.drop (4 + k + frameDataLen buf k)).take 2)

/-- Total bytes of the candidate frame: marker, header, payload, CRC. -/
def frameSize (buf : List Nat) (k : Nat) : Nat := 6 + k + frameDataLen buf k

/-- On an unrecognized marker the loop body discards exactly one byte and
retries: the resynchronization policy. -/
theorem parseStep_badMarker {buf : List Nat} (h2 : 2 ≤ buf.length)
    (hfmt : Packet.formats (leNat (buf.take 2)) = none) :
    parseStep buf = some (.skip, buf.drop 1) := by
  unfold parseStep
  rw [if_neg (by omega), hfmt]

/-- With a recognized marker but fewer bytes than the candidate frame needs,
the loop body stops and consumes nothing. -/
theorem parseStep_incomplete {buf : List Nat} {fmt : FrameFormat}
    (h2 : 2 ≤ buf.length)
    (hfmt : Packet.formats (leNat (buf.take 2)) = some fmt)
    (hshort : buf.length < frameSize buf fmt.lenSize) :
    parseStep buf = none := by
  unfold frameSize frameDataLen frameHeader at hshort
  unfold parseStep
  rw [if_neg (by omega), hfmt]
  dsimp only
  by_cases h4 : buf.length < 2 + fmt.lenSize + 4
  · rw [if_pos h4]
  · rw [if_neg h4, if_pos (by omega)]

/-- With a recognized marker and a complete candidate frame buffered, the loop
body consumes exactly the frame and produces either the decoded packet (CRC
match) or a diagnostic carrying the received and expected CRC (mismatch). -/
theorem parseStep_complete {buf : List Nat} {fmt : FrameFormat}
    (hfmt : Packet.formats (leNat (buf.take 2)) = some fmt)
    (hlen : frameSize buf fmt.lenSize ≤ buf.length) :
    parseStep buf =
      if frameRxCrc buf fmt.lenSize =
          crc_hqx (frameHeader buf fmt.lenSize ++ frameData buf fmt.lenSize)
            fmt.initialCrcValue then
        some (.packet ⟨((frameHeader buf fmt.lenSize).drop 1).headD 0,
          leNat (buf.take 2), (frameHeader buf fmt.lenSize).headD 0,
          frameData buf fmt.lenSize⟩, buf.drop (frameSize buf fmt.lenSize))
      else
        some (.crcError (frameRxCrc buf fmt.lenSize)
          (crc_hqx (frameHeader buf fmt.lenSize ++ frameData buf fmt.lenSize)
            fmt.initialCrcValue), buf.drop (frameSize buf fmt.lenSize)) := by
  unfold frameSize frameDataLen frameHeader at hlen
  unfold parseStep
  rw [if_neg (by omega), hfmt]
  dsimp only
  rw [if_neg (by omega), if_neg (by omega)]
  unfold frameRxCrc frameData frameSize frameDataLen frameHeader
  simp only [show 2 + (2 + fmt.lenSize) = 4 + fmt.lenSize from by omega,
    show 4 + (2 + fmt.lenSize) = 6 + fmt.lenSize from by omega]
  split
  · next hne => rfl
  · next hne => rw [if_pos (not_ne_iff.mp hne)]

/-! ### Parsing a complete wire frame -/

theorem headD_take {α : Type} (l : List α) (j : Nat) (hj : 0 < j) (d : α) :
    (l.take j).headD d = l.headD d := by
  cases l with
  | nil => simp
  | cons x xs =>
    cases j with
    | zero => omega
    | succ j => simp [List.take]

/-- What `Packet.pack` returning bytes means: a registered framing, in-range
fields, and the exact wire layout. -/
theorem pack_some {p : Packet} {bs : List Nat} (h : p.pack = some bs) :
    ∃ fmt, Packet.formats p.framing = some fmt ∧
      p.target < 256 ∧ p.command < 256 ∧ p.data.length < 256 ^ fmt.lenSize ∧
      bs = toLE 2 p.framing ++
        ([p.target, p.command] ++ toLE fmt.lenSize p.data.length ++ p.data) ++
        toLE 2 (crc_hqx ([p.target, p.command] ++ toLE fmt.lenSize p.data.length ++ p.data)
          fmt.initialCrcValue) := by
  unfold Packet.pack at h
  split at h
  · exact absurd h (by simp)
  · next fmt hfmt =>
    split at h
    · next hrange =>
      injection h with h
      exact ⟨fmt, hfmt, hrange.1, hrange.2.1, hrange.2.2, h.symm⟩
    · exact absurd h (by simp)

/-- Decoding one complete frame laid out on the wire: marker, message bytes
(header plus payload), CRC field, then arbitrary following bytes.  The loop
body consumes exactly the frame and compares the received CRC with the CRC
of the message bytes. -/
theorem parseStep_wire {f : Nat} {fmt : FrameFormat}
    (hfmt : Packet.formats f = some fmt)
    {msg : List Nat} {n : Nat} (hmsg : msg.length = 2 + fmt.lenSize + n)
    (hdl : leNat ((msg.drop 2).take fmt.lenSize) = n)
    {w : Nat} (hw : w < 65536) (rest : List Nat) :
    parseStep (toLE 2 f ++ msg ++ toLE 2 w ++ rest) =
      if w = crc_hqx msg fmt.initialCrcValue then
        some (.packet ⟨(msg.drop 1).headD 0, f, msg.headD 0,
          msg.drop (2 + fmt.lenSize)⟩, rest)
      else some (.crcError w (crc_hqx msg fmt.initialCrcValue), rest) := by
  have hassoc : toLE 2 f ++ msg ++ toLE 2 w ++ rest =
      toLE 2 f ++ (msg ++ (toLE 2 w ++ rest)) := by
    simp [List.append_assoc]
  rw [hassoc]
  have hk : 2 + fmt.lenSize ≤ msg.length := by omega
  have htake2 : (toLE 2 f ++ (msg ++ (toLE 2 w ++ rest))).take 2 = toLE 2 f :=
    List.take_left' (toLE_length 2 f)
  have hdrop2 : (toLE 2 f ++ (msg ++ (toLE 2 w ++ rest))).drop 2 =
      msg ++ (toLE 2 w ++ rest) :=
    List.drop_left' (toLE_length 2 f)
  have hle : leNat ((toLE 2 f ++ (msg ++ (toLE 2 w ++ rest))).take 2) = f := by
    rw [htake2, leNat_toLE]
    exact Nat.mod_eq_of_lt (by simpa using formats_lt hfmt)
  have hheader : frameHeader (toLE 2 f ++ (msg ++ (toLE 2 w ++ rest))) fmt.lenSize =
      msg.take (2 + fmt.lenSize) := by
    unfold frameHeader
    rw [hdrop2, List.take_append_of_le_length hk]
  have hheaderdrop : (msg.take (2 + fmt.lenSize)).drop 2 = (msg.drop 2).take fmt.lenSize := by
    rw [List.drop_take]
    congr 1
    omega
  have hdlen : frameDataLen (toLE 2 f ++ (msg ++ (toLE 2 w ++ rest))) fmt.lenSize = n := by
    unfold frameDataLen
    rw [hheader, hheaderdrop, hdl]
  have hdrop4 : (toLE 2 f ++ (msg ++ (toLE 2 w ++ rest))).drop (4 + fmt.lenSize) =
      msg.drop (2 + fmt.lenSize) ++ (toLE 2 w ++ rest) := by
    have : (4 + fmt.lenSize) = 2 + (2 + fmt.lenSize) := by omega
    rw [this, ← List.drop_drop, hdrop2, List.drop_append_of_le_length hk]
  have hdroplen : (msg.drop (2 + fmt.lenSize)).length = n := by
    rw [List.length_drop, hmsg]
    omega
  have hdata : frameData (toLE 2 f ++ (msg ++ (toLE 2 w ++ rest))) fmt.lenSize =
      msg.drop (2 + fmt.lenSize) := by
    unfold frameData
    rw [hdlen, hdrop4, List.take_append_of_le_length (le_of_eq hdroplen.symm),
      List.take_of_length_le (le_of_eq hdroplen)]
  have hdropcrc : (toLE 2 f ++ (msg ++ (toLE 2 w ++ rest))).drop (4 + fmt.lenSize + n) =
      toLE 2 w ++ rest := by
    have : (4 + fmt.lenSize + n) = (4 + fmt.lenSize) + n := by omega
    rw [this, ← List.drop_drop, hdrop4, List.drop_left' hdroplen]
  have hrx : frameRxCrc (toLE 2 f ++ (msg ++ (toLE 2 w ++ rest))) fmt.lenSize = w := by
    unfold frameRxCrc
    rw [hdlen, hdropcrc, List.take_left' (toLE_length 2 w), leNat_toLE]
    exact Nat.mod_eq_of_lt (by simpa using hw)
  have hrest : (toLE 2 f ++ (msg ++ (toLE 2 w ++ rest))).drop
      (frameSize (toLE 2 f ++ (msg ++ (toLE 2 w ++ rest))) fmt.lenSize) = rest := by
    unfold frameSize
    rw [hdlen]
    have : (6 + fmt.lenSize + n) = (4 + fmt.lenSize + n) + 2 := by omega
    rw [this, ← List.drop_drop, hdropcrc, List.drop_left' (toLE_length 2 w)]
  have hlen : frameSize (toLE 2 f ++ (msg ++ (toLE 2 w ++ rest))) fmt.lenSize ≤
      (toLE 2 f ++ (msg ++ (toLE 2 w ++ rest))).length := by
    unfold frameSize
    rw [hdlen]
    simp [List.length_append, toLE_length, hmsg]
    omega
  have hfmt' : Packet.formats
      (leNat ((toLE 2 f ++ (msg ++ (toLE 2 w ++ rest))).take 2)) = some fmt := by
    rw [hle]; exact hfmt
  rw [parseStep_complete hfmt' hlen, hheader, hdata, hrx, hrest, hle,
    List.take_append_drop]
  have hcmd : ((msg.take (2 + fmt.lenSize)).drop 1).headD 0 = (msg.drop 1).headD 0 := by
    rw [List.drop_take]
    exact headD_take _ _ (by omega) 0
  have htgt : (msg.take (2 + fmt.lenSize)).headD 0 = msg.headD 0 :=
    headD_take _ _ (by omega) 0
  rw [hcmd, htgt]

/-- The bytes produced by `Packet.pack` parse back, in one loop iteration, to
exactly the original packet, consuming the whole frame. -/
theorem parseStep_pack {p : Packet} {bs : List Nat} (h : p.pack = some bs) :
    parseStep bs = some (.packet p, []) := by
  obtain ⟨fmt, hfmt, ht, hc, hn, hbs⟩ := pack_some h
  subst hbs
  have hmsg : ([p.target, p.command] ++ toLE fmt.lenSize p.data.length ++ p.data).length =
      2 + fmt.lenSize + p.data.length := by
    simp [toLE_length]
    omega
  have hdrop2msg : ([p.target, p.command] ++ toLE fmt.lenSize p.data.length ++ p.data).drop 2 =
      toLE fmt.lenSize p.data.length ++ p.data := rfl
  have hdl : leNat ((([p.target, p.command] ++ toLE fmt.lenSize p.data.length ++
      p.data).drop 2).take fmt.lenSize) = p.data.length := by
    rw [hdrop2msg, List.take_left' (toLE_length _ _), leNat_toLE]
    exact Nat.mod_eq_of_lt hn
  have hshape : toLE 2 p.framing ++
      ([p.target, p.command] ++ toLE fmt.lenSize p.data.length ++ p.data) ++
      toLE 2 (crc_hqx ([p.target, p.command] ++ toLE fmt.lenSize p.data.length ++ p.data)
        fmt.initialCrcValue) =
      toLE 2 p.framing ++
      ([p.target, p.command] ++ toLE fmt.lenSize p.data.length ++ p.data) ++
      toLE 2 (crc_hqx ([p.target, p.command] ++ toLE fmt.lenSize p.data.length ++ p.data)
        fmt.initialCrcValue) ++ [] := by
    rw [List.append_nil]
  rw [hshape, parseStep_wire hfmt hmsg hdl (crc_hqx_lt _ _) [], if_pos rfl]
  have hdata2 : ([p.target, p.command] ++ toLE fmt.lenSize p.data.length ++ p.data).drop
      (2 + fmt.lenSize) = p.data := by
    have h2 : (2 + fmt.lenSize) = fmt.lenSize + 1 + 1 := by omega
    rw [h2]
    show (p.target :: p.command ::
      (toLE fmt.lenSize p.data.length ++ p.data)).drop (fmt.lenSize + 1 + 1) = p.data
    rw [List.drop_succ_cons, List.drop_succ_cons, List.drop_left' (toLE_length _ _)]
  rw [hdata2]
  rfl

theorem parseLoop_nil : parseLoop [] = ([], [], []) :=
  parseLoop_exit (by decide)

/-- Packed bytes decode to exactly the original packet with no diagnostics and
an empty final buffer. -/
theorem parseLoop_pack {p : Packet} {bs : List Nat} (h : p.pack = some bs) :
    parseLoop bs = ([p], [], []) := by
  rw [parseLoop_packet (parseStep_pack h), parseLoop_nil]

/-- C1: for every Packet with a recognized framing, a payload length
representable in the framing's length field (and byte-sized target and
command, without which `struct.pack` refuses to encode), `pack` produces
bytes, and a fresh receiver parsing exactly those bytes yields exactly one
Packet equal to the original in framing, target, command and payload. -/
theorem pack_parse_roundtrip (p : Packet) (fmt : FrameFormat)
    (hfmt : Packet.formats p.framing = some fmt)
    (hlen : p.data.length < 256 ^ fmt.lenSize)
    (ht : p.target < 256) (hcmd : p.command < 256) :
    ∃ bs, p.pack = some bs ∧ parseLoop bs = ([p], [], []) := by
  have hp : p.pack = some (toLE 2 p.framing ++
      ([p.target, p.command] ++ toLE fmt.lenSize p.data.length ++ p.data) ++
      toLE 2 (crc_hqx ([p.target, p.command] ++ toLE fmt.lenSize p.data.length ++ p.data)
        fmt.initialCrcValue)) := by
    unfold Packet.pack
    rw [hfmt]
    dsimp only
    rw [if_pos ⟨ht, hcmd, hlen⟩]
  exact ⟨_, hp, parseLoop_pack hp⟩

theorem pack_parse_roundtrip_witness :
    ∃ bs, Packet.pack ⟨0x06, SHORT_FORM, 0x01, [0x59, 0x00]⟩ = some bs ∧
      parseLoop bs = ([⟨0x06, SHORT_FORM, 0x01, [0x59, 0x00]⟩], [], []) :=
  pack_parse_roundtrip ⟨0x06, SHORT_FORM, 0x01, [0x59, 0x00]⟩ ⟨1, 0⟩
    (by decide) (by decide) (by decide) (by decide)

/-- C2: the short-form packet `target=0x00, command=0x01, payload=[0x05,0x00]`
packs to marker bytes `A5 5A`, header `00 01 02`, the payload verbatim, then
the 2-byte little-endian CRC of `00 01 02 05 00` with seed `0x0000`; and a
fresh receiver decodes those exact bytes back to the original packet. -/
theorem pack_concrete_scenario :
    Packet.pack ⟨0x01, SHORT_FORM, 0x00, [0x05, 0x00]⟩ =
      some ([0xa5, 0x5a, 0x00, 0x01, 0x02, 0x05, 0x00] ++
        toLE 2 (crc_hqx [0x00, 0x01, 0x02, 0x05, 0x00] 0x0000)) ∧
    parseLoop ([0xa5, 0x5a, 0x00, 0x01, 0x02, 0x05, 0x00] ++
        toLE 2 (crc_hqx [0x00, 0x01, 0x02, 0x05, 0x00] 0x0000)) =
      ([⟨0x01, SHORT_FORM, 0x00, [0x05, 0x00]⟩], [], []) := by
  constructor
  · decide
  · have hstep : parseStep ([0xa5, 0x5a, 0x00, 0x01, 0x02, 0x05, 0x00] ++
        toLE 2 (crc_hqx [0x00, 0x01, 0x02, 0x05, 0x00] 0x0000)) =
        some (.packet ⟨0x01, SHORT_FORM, 0x00, [0x05, 0x00]⟩, []) := by decide
    rw [parseLoop_packet hstep, parseLoop_nil]

/-- C4: when a complete candidate frame is buffered (recognized marker, full
header, declared payload and trailing CRC) and its recomputed CRC differs from
the received CRC field, the loop consumes exactly the full candidate frame,
yields no Packet for it, records a diagnostic with the received and expected
CRC values, and continues decoding the bytes that follow.  (`parseLoop` is a
total function, so this path raises nothing.) -/
theorem crc_mismatch_drops_frame (buf : List Nat) (fmt : FrameFormat)
    (hfmt : Packet.formats (leNat (buf.take 2)) = some fmt)
    (hlen : frameSize buf fmt.lenSize ≤ buf.length)
    (hbad : frameRxCrc buf fmt.lenSize ≠
      crc_hqx (frameHeader buf fmt.lenSize ++ frameData buf fmt.lenSize)
        fmt.initialCrcValue) :
    parseLoop buf =
      ((parseLoop (buf.drop (frameSize buf fmt.lenSize))).1,
       (frameRxCrc buf fmt.lenSize,
        crc_hqx (frameHeader buf fmt.lenSize ++ frameData buf fmt.lenSize)
          fmt.initialCrcValue) ::
         (parseLoop (buf.drop (frameSize buf fmt.lenSize))).2.1,
       (parseLoop (buf.drop (frameSize buf fmt.lenSize))).2.2) := by
  have hstep := parseStep_complete hfmt hlen
  rw [if_neg hbad] at hstep
  exact parseLoop_crcError hstep

theorem crc_mismatch_drops_frame_witness :
    parseLoop [0xa5, 0x5a, 0x00, 0x01, 0x02, 0x05, 0x00, 0x22, 0xe7] =
      ([], [(0xe722, 0xe721)], []) := by
  have h := crc_mismatch_drops_frame
    [0xa5, 0x5a, 0x00, 0x01, 0x02, 0x05, 0x00, 0x22, 0xe7] ⟨1, 0⟩
    (by decide) (by decide) (by decide)
  rw [h, show List.drop
      (frameSize [0xa5, 0x5a, 0x00, 0x01, 0x02, 0x05, 0x00, 0x22, 0xe7] 1)
      [0xa5, 0x5a, 0x00, 0x01, 0x02, 0x05, 0x00, 0x22, 0xe7] = ([] : List Nat)
    from by decide, parseLoop_nil]
  decide

/-- C7: with a recognized marker at the front but fewer buffered bytes than the
candidate frame needs, `parse` stops and consumes nothing: the whole buffer,
marker included, is left unchanged for the next call. -/
theorem incomplete_frame_consumes_nothing (buf : List Nat) (fmt : FrameFormat)
    (h2 : 2 ≤ buf.length)
    (hfmt : Packet.formats (leNat (buf.take 2)) = some fmt)
    (hshort : buf.length < frameSize buf fmt.lenSize) :
    parseLoop buf = ([], [], buf) :=
  parseLoop_exit (parseStep_incomplete h2 hfmt hshort)

theorem incomplete_frame_consumes_nothing_witness :
    parseLoop [0xa5, 0x5a, 0x00, 0x01, 0x05] =
      ([], [], [0xa5, 0x5a, 0x00, 0x01, 0x05]) :=
  incomplete_frame_consumes_nothing [0xa5, 0x5a, 0x00, 0x01, 0x05] ⟨1, 0⟩
    (by decide) (by decide) (by decide)

/-- C5: a buffer of at least 2 bytes whose leading little-endian 16-bit value
is not a registered marker loses exactly one byte (not two) before the loop
retries; consequently a stretch of bytes none of whose windows form a
registered marker is skipped byte by byte, and whatever follows it is examined
exactly as if it stood at the front of the stream. -/
theorem unrecognized_marker_skips_one_byte :
    (∀ buf : List Nat, 2 ≤ buf.length →
      Packet.formats (leNat (buf.take 2)) = none →
      parseLoop buf = parseLoop (buf.drop 1)) ∧
    (∀ g bs : List Nat, 2 ≤ bs.length →
      (∀ i, i < g.length →
        Packet.formats (leNat (((g ++ bs).drop i).take 2)) = none) →
      parseLoop (g ++ bs) = parseLoop bs) := by
  constructor
  · intro buf h2 hfmt
    exact parseLoop_skip (parseStep_badMarker h2 hfmt)
  · intro g
    induction g with
    | nil => intro bs _ _; rw [List.nil_append]
    | cons x g ih =>
      intro bs hbs hall
      have h0 : Packet.formats (leNat ((x :: (g ++ bs)).take 2)) = none := by
        have := hall 0 (by simp)
        simpa using this
      have h2 : 2 ≤ (x :: (g ++ bs)).length := by
        simp [List.length_cons, List.length_append]
        omega
      have hskip := parseLoop_skip (parseStep_badMarker h2 h0)
      rw [show (x :: g) ++ bs = x :: (g ++ bs) from rfl, hskip,
        List.drop_succ_cons, List.drop_zero]
      exact ih bs hbs (fun i hi => by
        have := hall (i + 1) (by simp at hi ⊢; omega)
        simpa [List.drop_succ_cons] using this)

theorem unrecognized_marker_skips_one_byte_witness :
    parseLoop [0x00, 0x00] = parseLoop [0x00] ∧
    parseLoop ([0x11, 0x22] ++ [0xa5, 0x5a]) = parseLoop [0xa5, 0x5a] :=
  ⟨unrecognized_marker_skips_one_byte.1 [0x00, 0x00] (by decide) (by decide),
   unrecognized_marker_skips_one_byte.2 [0x11, 0x22] [0xa5, 0x5a]
     (by decide) (by decide)⟩

/-- C8 counterexample to "encoding does not fail: it silently truncates":
a short-form packet with a 256-byte payload does not encode at all —
`struct.pack('<B', 256)` raises `struct.error`, modelled as `none`; no
truncated frame is produced. -/
theorem pack_oversized_counterexample :
    Packet.pack ⟨0x01, SHORT_FORM, 0x00, List.replicate 256 0⟩ = none := by
  decide

/-- C8 amended: when the payload length is not representable in the framing's
length field (at least 256 for short form, 65536 for long form), `pack`
fails with an error instead of truncating. -/
theorem pack_oversized_fails (p : Packet) (fmt : FrameFormat)
    (hfmt : Packet.formats p.framing = some fmt)
    (hlen : 256 ^ fmt.lenSize ≤ p.data.length) :
    p.pack = none := by
  unfold Packet.pack
  rw [hfmt]
  dsimp only
  rw [if_neg (fun hco => absurd hco.2.2 (by omega))]

theorem pack_oversized_fails_witness :
    Packet.pack ⟨0x02, SHORT_FORM, 0x00, List.replicate 300 7⟩ = none :=
  pack_oversized_fails ⟨0x02, SHORT_FORM, 0x00, List.replicate 300 7⟩ ⟨1, 0⟩
    (by decide) (by decide)

/-- C10: each completed iteration of the parse extraction loop removes at
least one byte from the buffer (a resynchronization skip or a whole candidate
frame), and otherwise the loop exits; with finitely many buffered bytes the
loop always terminates. -/
theorem parse_iteration_decreases (buf : List Nat) (ev : ParseEvent)
    (rest : List Nat) (h : parseStep buf = some (ev, rest)) :
    rest.length < buf.length :=
  parseStep_shrinks buf ev rest h

theorem parse_iteration_decreases_witness :
    parseStep [0x00, 0x00] = some (.skip, [0x00]) ∧
    ([0x00] : List Nat).length < ([0x00, 0x00] : List Nat).length :=
  ⟨by decide, parse_iteration_decreases [0x00, 0x00] .skip [0x00] (by decide)⟩

/-! ### Fragmentation invariance -/

theorem parseStep_tooShort {buf : List Nat} (h : buf.length < 2) :
    parseStep buf = none := by
  unfold parseStep
  rw [if_pos h]

/-- A proper leading portion of a complete wire frame makes the loop stop and
wait for more data. -/
theorem parseStep_wire_prefix {f : Nat} {fmt : FrameFormat}
    (hfmt : Packet.formats f = some fmt)
    {msg : List Nat} {n : Nat} (hmsg : msg.length = 2 + fmt.lenSize + n)
    (hdl : leNat ((msg.drop 2).take fmt.lenSize) = n)
    (w : Nat) (q r : List Nat)
    (hqr : q ++ r = toLE 2 f ++ msg ++ toLE 2 w) (hr : r ≠ []) :
    parseStep q = none := by
  by_cases h2 : q.length < 2
  · exact parseStep_tooShort h2
  · push_neg at h2
    set B := toLE 2 f ++ msg ++ toLE 2 w with hB
    have hq : q = B.take q.length := by
      rw [← hqr, List.take_left]
    have hqlt : q.length < B.length := by
      rw [← hqr, List.length_append]
      have : 0 < r.length := List.length_pos.mpr hr
      omega
    have hBlen : B.length = 6 + fmt.lenSize + n := by
      rw [hB]
      simp [List.length_append, toLE_length, hmsg]
      omega
    have hdropB : B.drop 2 = msg ++ toLE 2 w := by
      rw [hB, List.append_assoc]
      exact List.drop_left' (toLE_length 2 f)
    have htake2 : q.take 2 = toLE 2 f := by
      rw [hq, List.take_take, min_eq_left h2, hB, List.append_assoc]
      exact List.take_left' (toLE_length 2 f)
    have hfmtq : Packet.formats (leNat (q.take 2)) = some fmt := by
      rw [htake2, leNat_toLE,
        Nat.mod_eq_of_lt (by simpa using formats_lt hfmt)]
      exact hfmt
    apply parseStep_incomplete h2 hfmtq
    by_cases h6 : q.length < 6 + fmt.lenSize
    · unfold frameSize
      omega
    · push_neg at h6
      have hheaderq : frameHeader q fmt.lenSize = msg.take (2 + fmt.lenSize) := by
        unfold frameHeader
        rw [hq, List.drop_take, List.take_take, min_eq_left (by omega), hdropB,
          List.take_append_of_le_length (by omega)]
      have hdlq : frameDataLen q fmt.lenSize = n := by
        unfold frameDataLen
        rw [hheaderq, List.drop_take,
          show (2 + fmt.lenSize) - 2 = fmt.lenSize from by omega, hdl]
      unfold frameSize
      rw [hdlq]
      omega

/-- A proper leading portion of a packed frame parses to nothing: the bytes
stay buffered. -/
theorem parseStep_pack_prefix {p : Packet} {bs : List Nat} (h : p.pack = some bs)
    (q r : List Nat) (hqr : q ++ r = bs) (hr : r ≠ []) : parseStep q = none := by
  obtain ⟨fmt, hfmt, ht, hc, hn, hbs⟩ := pack_some h
  subst hbs
  have hmsg : ([p.target, p.command] ++ toLE fmt.lenSize p.data.length ++ p.data).length =
      2 + fmt.lenSize + p.data.length := by
    simp [toLE_length]
    omega
  have hdl : leNat ((([p.target, p.command] ++ toLE fmt.lenSize p.data.length ++
      p.data).drop 2).take fmt.lenSize) = p.data.length := by
    rw [show ([p.target, p.command] ++ toLE fmt.lenSize p.data.length ++ p.data).drop 2 =
        toLE fmt.lenSize p.data.length ++ p.data from rfl,
      List.take_left' (toLE_length _ _), leNat_toLE]
    exact Nat.mod_eq_of_lt hn
  exact parseStep_wire_prefix hfmt hmsg hdl _ q r hqr hr

theorem feedAll_empty_chunks : ∀ cs : List (List Nat), cs.flatten = [] →
    feedAll [] cs = ([], [], []) := by
  intro cs
  induction cs with
  | nil => intro _; rfl
  | cons c cs ih =>
    intro hj
    rw [List.flatten_cons] at hj
    obtain ⟨hc, hcs⟩ := List.append_eq_nil.mp hj
    subst hc
    simp only [feedAll, PacketReceiver.parse, List.nil_append, parseLoop_nil,
      ih hcs]

/-- Feeding the chunks of one packed frame, however it is split, yields the
packet exactly when the last byte arrives; the receiver's buffer carries the
growing prefix across calls. -/
theorem feedAll_pack_chunks {p : Packet} {bs : List Nat} (h : p.pack = some bs) :
    ∀ (cs : List (List Nat)) (pre : List Nat), pre ++ cs.flatten = bs →
      pre ≠ bs → feedAll pre cs = ([p], [], []) := by
  intro cs
  induction cs with
  | nil =>
    intro pre hpre hne
    rw [List.flatten_nil, List.append_nil] at hpre
    exact absurd hpre hne
  | cons c cs ih =>
    intro pre hpre hne
    rw [List.flatten_cons, ← List.append_assoc] at hpre
    by_cases hfull : pre ++ c = bs
    · have hjoin : cs.flatten = [] := by
        rw [hfull] at hpre
        have hlen := congrArg List.length hpre
        rw [List.length_append] at hlen
        exact List.eq_nil_of_length_eq_zero (by omega)
      simp only [feedAll, PacketReceiver.parse, hfull, parseLoop_pack h,
        feedAll_empty_chunks cs hjoin]
      rfl
    · have hjne : cs.flatten ≠ [] := by
        intro hj
        rw [hj, List.append_nil] at hpre
        exact hfull hpre
      have hstep : parseStep (pre ++ c) = none :=
        parseStep_pack_prefix h (pre ++ c) cs.flatten hpre hjne
      simp only [feedAll, PacketReceiver.parse, parseLoop_exit hstep,
        ih (pre ++ c) hpre hfull]
      rfl

/-- C6: for every packed frame and every way of splitting its bytes into
consecutive chunks, feeding the chunks one by one to the same receiver
produces exactly the same result (packets, diagnostics, final buffer) as
feeding the whole frame to a fresh receiver in one call. -/
theorem fragmentation_invariance (p : Packet) (bs : List Nat)
    (h : p.pack = some bs) (cs : List (List Nat)) (hcs : cs.flatten = bs) :
    feedAll [] cs = parseLoop bs := by
  have hne : bs ≠ [] := by
    obtain ⟨fmt, _, _, _, _, hbs⟩ := pack_some h
    subst hbs
    simp [toLE_length]
  rw [parseLoop_pack h]
  exact feedAll_pack_chunks h cs [] (by simpa using hcs) (by simpa using hne.symm)

theorem fragmentation_invariance_witness :
    feedAll [] [[0xa5], [0x5a, 0x00, 0x01, 0x02, 0x05], [], [0x00, 0x21, 0xe7]] =
      parseLoop [0xa5, 0x5a, 0x00, 0x01, 0x02, 0x05, 0x00, 0x21, 0xe7] :=
  fragmentation_invariance ⟨0x01, SHORT_FORM, 0x00, [0x05, 0x00]⟩
    [0xa5, 0x5a, 0x00, 0x01, 0x02, 0x05, 0x00, 0x21, 0xe7]
    (by decide) [[0xa5], [0x5a, 0x00, 0x01, 0x02, 0x05], [], [0x00, 0x21, 0xe7]]
    (by decide)

/-! ### The CRC algorithm on the wire -/

/-- Modelled from the spec: one round of the CRC-16/ARC variant the spec
names — reflected polynomial `0xA001`, least-significant bit first. -/
def crcArcRound (c : Nat) : Nat :=
  if c % 2 = 1 then (c / 2) ^^^ 0xa001 else c / 2

/-- Modelled from the spec: iterated ARC rounds. -/
def crcArcRounds : Nat → Nat → Nat
  | 0, c => c
  | n + 1, c => crcArcRounds n (crcArcRound c)

/-- Modelled from the spec: feed one byte into the ARC CRC state. -/
def crcArcByte (c b : Nat) : Nat := crcArcRounds 8 ((c ^^^ (b % 256)) % 65536)

/-- Modelled from the spec: CRC-16/ARC (reflected polynomial `0xA001`) of a
byte list from a given initial value, the algorithm the spec claims the code
uses. -/
def crcArc (data : List Nat) (crc : Nat) : Nat :=
  data.foldl crcArcByte (crc % 65536)

/-- C3 counterexample: on the spec's own concrete scenario bytes the CRC the
code computes (`crc_hqx`, `0xE721`) is not the CRC-16/ARC value (`0x6CA3`),
and `pack` does not append the ARC value. -/
theorem pack_crc_not_arc_counterexample :
    Packet.crc SHORT_FORM [0x00, 0x01, 0x02, 0x05, 0x00] = some 0xe721 ∧
    crcArc [0x00, 0x01, 0x02, 0x05, 0x00] 0x0000 = 0x6ca3 ∧
    Packet.pack ⟨0x01, SHORT_FORM, 0x00, [0x05, 0x00]⟩ ≠
      some ([0xa5, 0x5a, 0x00, 0x01, 0x02, 0x05, 0x00] ++
        toLE 2 (crcArc [0x00, 0x01, 0x02, 0x05, 0x00] 0x0000)) := by
  refine ⟨by decide, by decide, by decide⟩

/-- C3 amended: the 16-bit CRC appended by `pack` is `binascii.crc_hqx` — the
CCITT CRC-16, polynomial `0x1021`, MSB first, not the reflected-`0xA001` ARC
variant — computed over target byte, command byte, length field and payload,
seeded with the framing's registered initial value: `0xFFFF` for the long form
`0xAA55` and `0x0000` for the short form `0x5AA5`. -/
theorem pack_crc_algorithm (p : Packet) (fmt : FrameFormat) (bs : List Nat)
    (hfmt : Packet.formats p.framing = some fmt)
    (hpack : p.pack = some bs) :
    bs.drop (4 + fmt.lenSize + p.data.length) =
      toLE 2 (crc_hqx ([p.target, p.command] ++ toLE fmt.lenSize p.data.length ++ p.data)
        fmt.initialCrcValue) ∧
    ((p.framing = LONG_FORM ∧ fmt.initialCrcValue = 0xffff) ∨
     (p.framing = SHORT_FORM ∧ fmt.initialCrcValue = 0x0000)) := by
  obtain ⟨fmt', hfmt', ht, hc, hn, hbs⟩ := pack_some hpack
  rw [hfmt'] at hfmt
  injection hfmt with hfmt
  subst hfmt
  subst hbs
  constructor
  · apply List.drop_left'
    simp [List.length_append, toLE_length]
    omega
  · rcases formats_cases hfmt' with ⟨hf, hv⟩ | ⟨hf, hv⟩
    · exact Or.inl ⟨hf, by rw [hv]⟩
    · exact Or.inr ⟨hf, by rw [hv]⟩

theorem pack_crc_algorithm_witness :
    ([0xa5, 0x5a, 0x00, 0x01, 0x02, 0x05, 0x00, 0x21, 0xe7] : List Nat).drop
        (4 + 1 + 2) =
      toLE 2 (crc_hqx ([0x00, 0x01] ++ toLE 1 2 ++ [0x05, 0x00]) 0x0000) ∧
    ((SHORT_FORM = LONG_FORM ∧ (0x0000 : Nat) = 0xffff) ∨
     (SHORT_FORM = SHORT_FORM ∧ (0x0000 : Nat) = 0x0000)) :=
  pack_crc_algorithm ⟨0x01, SHORT_FORM, 0x00, [0x05, 0x00]⟩ ⟨1, 0x0000⟩
    [0xa5, 0x5a, 0x00, 0x01, 0x02, 0x05, 0x00, 0x21, 0xe7]
    (by decide) (by decide)

/-! ### Single-bit corruption is caught by the CRC

`crc_hqx` is GF(2)-linear in (state, message): the CRC of a message with one
bit flipped differs from the original CRC by the (nonzero) CRC of the
corresponding single-bit error vector. -/

theorem xor_mod_two_pow (x y k : Nat) :
    (x ^^^ y) % 2 ^ k = x % 2 ^ k ^^^ y % 2 ^ k := by
  apply Nat.eq_of_testBit_eq
  intro i
  rw [Nat.testBit_mod_two_pow, Nat.testBit_xor, Nat.testBit_xor,
    Nat.testBit_mod_two_pow, Nat.testBit_mod_two_pow]
  cases hd : decide (i < k) <;> simp

theorem xor_mod_65536 (x y : Nat) :
    (x ^^^ y) % 65536 = x % 65536 ^^^ y % 65536 := by
  have h := xor_mod_two_pow x y 16
  norm_num at h
  exact h

theorem xor_mod_256 (x y : Nat) : (x ^^^ y) % 256 = x % 256 ^^^ y % 256 := by
  have h := xor_mod_two_pow x y 8
  norm_num at h
  exact h

theorem xor_shiftLeft (x y n : Nat) : (x ^^^ y) <<< n = x <<< n ^^^ y <<< n := by
  apply Nat.eq_of_testBit_eq
  intro i
  rw [Nat.testBit_xor, Nat.testBit_shiftLeft, Nat.testBit_shiftLeft,
    Nat.testBit_shiftLeft, Nat.testBit_xor]
  cases hd : decide (i ≥ n) <;> simp

theorem xor_rotate (a b p : Nat) : a ^^^ b ^^^ p = a ^^^ p ^^^ b := by
  rw [Nat.xor_assoc, Nat.xor_assoc, Nat.xor_comm b p]

theorem crcRound_xor (a b : Nat) :
    crcRound (a ^^^ b) = crcRound a ^^^ crcRound b := by
  unfold crcRound
  cases ha : a.testBit 15 <;> cases hb : b.testBit 15
  · have hbit : (a ^^^ b).testBit 15 = false := by
      rw [Nat.testBit_xor, ha, hb]
      rfl
    rw [if_neg (by simp [hbit]), if_neg (by simp), if_neg (by simp),
      xor_shiftLeft, xor_mod_65536]
  · have hbit : (a ^^^ b).testBit 15 = true := by
      rw [Nat.testBit_xor, ha, hb]
      rfl
    rw [if_pos hbit, if_neg (by simp), if_pos rfl, ← xor_mod_65536]
    congr 1
    rw [xor_shiftLeft, Nat.xor_assoc]
  · have hbit : (a ^^^ b).testBit 15 = true := by
      rw [Nat.testBit_xor, ha, hb]
      rfl
    rw [if_pos hbit, if_pos rfl, if_neg (by simp), ← xor_mod_65536]
    congr 1
    rw [xor_shiftLeft, xor_rotate]
  · have hbit : (a ^^^ b).testBit 15 = false := by
      rw [Nat.testBit_xor, ha, hb]
      rfl
    rw [if_neg (by simp [hbit]), if_pos rfl, if_pos rfl, ← xor_mod_65536]
    congr 1
    rw [xor_shiftLeft, Nat.xor_assoc (a <<< 1) 4129,
      Nat.xor_comm (b <<< 1) 4129, ← Nat.xor_assoc 4129 4129 (b <<< 1),
      Nat.xor_self, Nat.zero_xor]

theorem crcRounds_xor (n a b : Nat) :
    crcRounds n (a ^^^ b) = crcRounds n a ^^^ crcRounds n b := by
  induction n generalizing a b with
  | zero => rfl
  | succ n ih =>
    show crcRounds n (crcRound (a ^^^ b)) = _
    rw [crcRound_xor, ih]
    rfl

theorem crcByte_xor (a b x y : Nat) :
    crcByte (a ^^^ b) (x ^^^ y) = crcByte a x ^^^ crcByte b y := by
  unfold crcByte
  rw [← crcRounds_xor]
  congr 1
  rw [← xor_mod_65536]
  congr 1
  rw [xor_mod_256, xor_shiftLeft]
  rw [Nat.xor_assoc, Nat.xor_assoc]
  congr 1
  rw [← Nat.xor_assoc, Nat.xor_comm b, Nat.xor_assoc]

theorem foldl_crcByte_xor : ∀ (m e : List Nat) (a b : Nat),
    m.length = e.length →
    (List.zipWith (fun u v => u ^^^ v) m e).foldl crcByte (a ^^^ b) =
      m.foldl crcByte a ^^^ e.foldl crcByte b := by
  intro m
  induction m with
  | nil =>
    intro e a b he
    cases e with
    | nil => simp
    | cons y e => simp at he
  | cons x m ih =>
    intro e a b he
    cases e with
    | nil => simp at he
    | cons y e =>
      simp only [List.zipWith_cons_cons, List.foldl_cons]
      rw [crcByte_xor]
      exact ih e _ _ (by simpa using he)

theorem crc_hqx_zip_xor (m e : List Nat) (s : Nat) (he : m.length = e.length) :
    crc_hqx (List.zipWith (fun u v => u ^^^ v) m e) s =
      crc_hqx m s ^^^ crc_hqx e 0 := by
  unfold crc_hqx
  have h0 : (0 : Nat) % 65536 = 0 := rfl
  rw [h0]
  have hs : s % 65536 = s % 65536 ^^^ 0 := (Nat.xor_zero _).symm
  conv_lhs => rw [hs]
  exact foldl_crcByte_xor m e _ _ he

theorem foldl_crcByte_zeros : ∀ t : Nat, (List.replicate t 0).foldl crcByte 0 = 0 := by
  intro t
  induction t with
  | zero => rfl
  | succ t ih =>
    rw [List.replicate_succ, List.foldl_cons, show crcByte 0 0 = 0 from by decide]
    exact ih

theorem crcRound_ne_zero {c : Nat} (hc : c < 65536) (h0 : c ≠ 0) :
    crcRound c ≠ 0 := by
  unfold crcRound
  split
  · next hbit =>
    intro heq
    have hb : (((c <<< 1) ^^^ 0x1021) % 65536).testBit 0 = true := by
      rw [show (65536 : Nat) = 2 ^ 16 from by norm_num, Nat.testBit_mod_two_pow,
        Nat.testBit_xor, Nat.testBit_shiftLeft]
      simp
    rw [heq, Nat.zero_testBit] at hb
    exact absurd hb (by simp)
  · next hbit =>
    have hb15 : c.testBit 15 = false := by
      cases h : c.testBit 15
      · rfl
      · exact absurd h hbit
    have hdiv : ¬ c / 2 ^ 15 % 2 = 1 := by
      have := @Nat.testBit_to_div_mod 15 c
      rw [hb15] at this
      simpa using this.symm
    have hlt : c < 32768 := by
      have h1 : c / 32768 < 2 := by omega
      have h2 : ¬ c / 32768 % 2 = 1 := by
        simpa using hdiv
      omega
    rw [Nat.shiftLeft_eq, Nat.mod_eq_of_lt (by omega)]
    simp
    omega

theorem crcRounds_ne_zero (n : Nat) : ∀ {c : Nat}, c < 65536 → c ≠ 0 →
    crcRounds n c ≠ 0 := by
  induction n with
  | zero => intro c _ h0; exact h0
  | succ n ih =>
    intro c hc h0
    exact ih (crcRound_lt c) (crcRound_ne_zero hc h0)

theorem crcByte_zero_ne {c : Nat} (hc : c < 65536) (h0 : c ≠ 0) :
    crcByte c 0 ≠ 0 := by
  unfold crcByte
  have h : (c ^^^ (0 % 256) <<< 8) % 65536 = c := by
    rw [show (0 : Nat) % 256 = 0 from rfl, Nat.zero_shiftLeft, Nat.xor_zero]
    exact Nat.mod_eq_of_lt hc
  rw [h]
  exact crcRounds_ne_zero 8 hc h0

theorem foldl_crcByte_zeros_ne : ∀ (t : Nat) {c : Nat}, c < 65536 → c ≠ 0 →
    (List.replicate t 0).foldl crcByte c ≠ 0 := by
  intro t
  induction t with
  | zero => intro c _ h0; exact h0
  | succ t ih =>
    intro c hc h0
    rw [List.replicate_succ, List.foldl_cons]
    exact ih (crcByte_lt c 0) (crcByte_zero_ne hc h0)

/-- The CRC of a single-bit error vector is never zero: `crc_hqx` detects any
one-bit change. -/
theorem errVec_crc_ne_zero (i t j : Nat) (hj : j < 8) :
    crc_hqx (List.replicate i 0 ++ [1 <<< j] ++ List.replicate t 0) 0 ≠ 0 := by
  unfold crc_hqx
  rw [show (0 : Nat) % 65536 = 0 from rfl, List.foldl_append, List.foldl_append,
    foldl_crcByte_zeros, List.foldl_cons, List.foldl_nil]
  have hstate : crcByte 0 (1 <<< j) ≠ 0 ∧ crcByte 0 (1 <<< j) < 65536 := by
    interval_cases j <;> exact ⟨by decide, by decide⟩
  exact foldl_crcByte_zeros_ne t hstate.2 hstate.1

/-- Flipping one bit of one byte anywhere in the message changes its CRC. -/
theorem crc_hqx_flip_ne (m1 m2 : List Nat) (x j s : Nat) (hj : j < 8) :
    crc_hqx (m1 ++ [x ^^^ 1 <<< j] ++ m2) s ≠ crc_hqx (m1 ++ [x] ++ m2) s := by
  have hzip : List.zipWith (fun u v => u ^^^ v) (m1 ++ [x] ++ m2)
      (List.replicate m1.length 0 ++ [1 <<< j] ++ List.replicate m2.length 0) =
      m1 ++ [x ^^^ 1 <<< j] ++ m2 := by
    rw [List.zipWith_append _ _ _ _ _ (by simp), List.zipWith_append _ _ _ _ _ (by simp)]
    congr 1
    · congr 1
      · clear hj
        induction m1 with
        | nil => rfl
        | cons a l ih => simp [List.replicate_succ, ih]
    · clear hj
      induction m2 with
      | nil => rfl
      | cons a l ih => simp [List.replicate_succ, ih]
  have hlin := crc_hqx_zip_xor (m1 ++ [x] ++ m2)
    (List.replicate m1.length 0 ++ [1 <<< j] ++ List.replicate m2.length 0)
    s (by simp)
  rw [hzip] at hlin
  rw [hlin]
  intro heq
  have hself := congrArg (fun z => crc_hqx (m1 ++ [x] ++ m2) s ^^^ z) heq
  simp only [← Nat.xor_assoc, Nat.xor_self, Nat.zero_xor, Nat.xor_zero] at hself
  exact errVec_crc_ne_zero m1.length m2.length j hj hself

/-- Flip bit `j` of the byte at index `i` of a byte string. -/
def flipBit (bs : List Nat) (i j : Nat) : List Nat :=
  bs.set i (bs.getD i 0 ^^^ 1 <<< j)

theorem take_set_ge {α : Type} (l : List α) (q k : Nat) (hqk : k ≤ q) (v : α) :
    (l.set q v).take k = l.take k := by
  induction l generalizing q k with
  | nil => simp
  | cons a l ih =>
    cases q with
    | zero =>
      have hk : k = 0 := Nat.le_zero.mp hqk
      subst hk
      simp
    | succ q =>
      cases k with
      | zero => simp
      | succ k =>
        rw [List.set_cons_succ, List.take_succ_cons, List.take_succ_cons,
          ih q k (by omega)]

theorem list_set_decomp {α : Type} (l : List α) (m : Nat) (hm : m < l.length)
    (v d : α) :
    l = l.take m ++ [l.getD m d] ++ l.drop (m + 1) ∧
    l.set m v = l.take m ++ [v] ++ l.drop (m + 1) := by
  induction l generalizing m with
  | nil => simp at hm
  | cons a l ih =>
    cases m with
    | zero =>
      constructor
      · simp
      · simp
    | succ m =>
      have hm' : m < l.length := by simpa using hm
      obtain ⟨h1, h2⟩ := ih m hm'
      constructor
      · simp only [List.take_succ_cons, List.getD_cons_succ,
          List.drop_succ_cons, List.cons_append]
        exact congrArg (a :: ·) (by simpa using h1)
      · simp only [List.set_cons_succ, List.take_succ_cons,
          List.drop_succ_cons, List.cons_append]
        exact congrArg (a :: ·) (by simpa using h2)

/-- C9 amended: flipping any single bit of a packed frame in the target byte,
the command byte or the payload — not the marker, not the length field, not
the CRC field — makes the decoder consume the whole frame and drop it with a
CRC diagnostic instead of yielding a Packet, and the bytes following the
corrupted frame are decoded exactly as if it had never arrived.  (A flip
inside the length field changes the declared payload length instead, so the
decoder need not report a CRC mismatch at all — see the counterexample.) -/
theorem flip_nonlength_bit_rejected (p : Packet) (fmt : FrameFormat)
    (bs : List Nat) (hfmt : Packet.formats p.framing = some fmt)
    (hpack : p.pack = some bs)
    (i j : Nat) (hj : j < 8)
    (hi2 : 2 ≤ i) (hiHi : i < 4 + fmt.lenSize + p.data.length)
    (hiNotLen : i < 4 ∨ 4 + fmt.lenSize ≤ i)
    (rest : List Nat) :
    ∃ rx expected, rx ≠ expected ∧
      parseLoop (flipBit bs i j ++ rest) =
        ((parseLoop rest).1, (rx, expected) :: (parseLoop rest).2.1,
          (parseLoop rest).2.2) := by
  obtain ⟨fmt', hfmt', ht, hcmd, hn, hbs⟩ := pack_some hpack
  rw [hfmt'] at hfmt
  injection hfmt with hfmt
  subst hfmt
  subst hbs
  have hmsglen : ([p.target, p.command] ++ toLE fmt'.lenSize p.data.length ++
      p.data).length = 2 + fmt'.lenSize + p.data.length := by
    simp [toLE_length]
    omega
  have hdl : leNat ((([p.target, p.command] ++ toLE fmt'.lenSize p.data.length ++
      p.data).drop 2).take fmt'.lenSize) = p.data.length := by
    rw [show ([p.target, p.command] ++ toLE fmt'.lenSize p.data.length ++
        p.data).drop 2 = toLE fmt'.lenSize p.data.length ++ p.data from rfl,
      List.take_left' (toLE_length _ _), leNat_toLE]
    exact Nat.mod_eq_of_lt hn
  generalize hmsgE : [p.target, p.command] ++ toLE fmt'.lenSize p.data.length ++
    p.data = msgE at hmsglen hdl ⊢
  have hwlt : crc_hqx msgE fmt'.initialCrcValue < 65536 := crc_hqx_lt _ _
  have hm : i - 2 < msgE.length := by
    rw [hmsglen]
    omega
  have hlen1 : (toLE 2 p.framing ++ msgE).length =
      4 + fmt'.lenSize + p.data.length := by
    rw [List.length_append, toLE_length, hmsglen]
    omega
  have hflip : flipBit (toLE 2 p.framing ++ msgE ++
      toLE 2 (crc_hqx msgE fmt'.initialCrcValue)) i j =
      toLE 2 p.framing ++
        msgE.set (i - 2) (msgE.getD (i - 2) 0 ^^^ 1 <<< j) ++
        toLE 2 (crc_hqx msgE fmt'.initialCrcValue) := by
    unfold flipBit
    rw [List.getD_append _ _ _ i (by rw [hlen1]; omega),
      List.getD_append_right _ _ _ i (by rw [toLE_length]; omega), toLE_length,
      List.set_append, if_pos (by rw [hlen1]; omega),
      List.set_append, if_neg (by rw [toLE_length]; omega), toLE_length]
  have hmsglen' : (msgE.set (i - 2) (msgE.getD (i - 2) 0 ^^^ 1 <<< j)).length =
      2 + fmt'.lenSize + p.data.length := by
    rw [List.length_set, hmsglen]
  have hdl' : leNat (((msgE.set (i - 2)
      (msgE.getD (i - 2) 0 ^^^ 1 <<< j)).drop 2).take fmt'.lenSize) =
      p.data.length := by
    have hslice : ((msgE.set (i - 2)
        (msgE.getD (i - 2) 0 ^^^ 1 <<< j)).drop 2).take fmt'.lenSize =
        (msgE.drop 2).take fmt'.lenSize := by
      rcases hiNotLen with hlt | hge
      · rw [List.drop_set, if_pos (by omega)]
      · rw [List.drop_set, if_neg (by omega), take_set_ge _ _ _ (by omega)]
    rw [hslice, hdl]
  obtain ⟨hdec, hsetdec⟩ := list_set_decomp msgE (i - 2) hm
    (msgE.getD (i - 2) 0 ^^^ 1 <<< j) 0
  have hne : crc_hqx msgE fmt'.initialCrcValue ≠
      crc_hqx (msgE.set (i - 2) (msgE.getD (i - 2) 0 ^^^ 1 <<< j))
        fmt'.initialCrcValue := by
    rw [hsetdec]
    conv_lhs => rw [hdec]
    exact fun heq => crc_hqx_flip_ne (msgE.take (i - 2)) (msgE.drop (i - 2 + 1))
      (msgE.getD (i - 2) 0) j fmt'.initialCrcValue hj heq.symm
  have hstep := parseStep_wire hfmt' hmsglen' hdl' hwlt rest
  rw [if_neg hne] at hstep
  refine ⟨crc_hqx msgE fmt'.initialCrcValue,
    crc_hqx (msgE.set (i - 2) (msgE.getD (i - 2) 0 ^^^ 1 <<< j))
      fmt'.initialCrcValue, hne, ?_⟩
  rw [hflip]
  exact parseLoop_crcError hstep

theorem flip_nonlength_bit_rejected_witness :
    ∃ rx expected, rx ≠ expected ∧
      parseLoop (flipBit [0xa5, 0x5a, 0x00, 0x01, 0x02, 0x05, 0x00, 0x21, 0xe7]
          5 0 ++ []) =
        ((parseLoop []).1, (rx, expected) :: (parseLoop []).2.1,
          (parseLoop []).2.2) :=
  flip_nonlength_bit_rejected ⟨0x01, SHORT_FORM, 0x00, [0x05, 0x00]⟩ ⟨1, 0x0000⟩
    [0xa5, 0x5a, 0x00, 0x01, 0x02, 0x05, 0x00, 0x21, 0xe7]
    (by decide) (by decide) 5 0 (by decide) (by decide) (by decide)
    (Or.inr (by decide)) []

/-- C9 counterexample: the claim includes flips in the length field, but
flipping bit 0 of the length byte of a valid short-form frame (declared
length 2 becomes 3) and feeding the result alone to a fresh decoder yields no
Packet, surfaces no CRC diagnostic, and consumes nothing — the decoder simply
waits for the extra declared byte, so the frame is not "dropped with a CRC
diagnostic". -/
theorem flip_length_bit_counterexample :
    Packet.pack ⟨0x01, SHORT_FORM, 0x00, [0x05, 0x00]⟩ =
      some [0xa5, 0x5a, 0x00, 0x01, 0x02, 0x05, 0x00, 0x21, 0xe7] ∧
    flipBit [0xa5, 0x5a, 0x00, 0x01, 0x02, 0x05, 0x00, 0x21, 0xe7] 4 0 =
      [0xa5, 0x5a, 0x00, 0x01, 0x03, 0x05, 0x00, 0x21, 0xe7] ∧
    parseLoop [0xa5, 0x5a, 0x00, 0x01, 0x03, 0x05, 0x00, 0x21, 0xe7] =
      ([], [], [0xa5, 0x5a, 0x00, 0x01, 0x03, 0x05, 0x00, 0x21, 0xe7]) := by
  refine ⟨by decide, by decide, parseLoop_exit (by decide)⟩
